import Mathlib

/-!
Verification development for the MessageTags core of GenericMessagePlugin.

The embedding follows src/Plugins/GMP/Source/GMPEditor/MessageTags/Classes/MessageTagsManager.h.
The header defines the node structure (FMessageTagNode), the inline accessors
(FindTagNode, GetSingleTagContainer, VerifyNetworkIndex, the network-index getters,
GetNetIndex, IsExplicitTag and friends) which are embedded from the source text.
The out-of-line method bodies (ConstructNetIndex, InsertTagIntoNodeArray,
AddTagTableRow, MarkChildrenOfNodeConflict, the FMessageTagNode constructor,
GetTagNameFromNetIndex, GetNetIndexFromTag, RequestMessageTagParents) live in
MessageTagsManager.cpp which is not part of the sources; those definitions are
modelled from the specification and are marked as such in their doc comments.
-/

/-- A tag path: the list of dotted segments of a full tag such as A.B.C. -/
abbrev TagPath := List String

/-- Dotted string form of a tag path (the FName of the complete tag). -/
def pathString (p : TagPath) : String := String.intercalate "." p

/-- Per-node data of FMessageTagNode (MessageTagsManager.h lines 193-334):
single-tag container (complete tag first, then parents), provenance, the
editor-only explicit/restriction/conflict flags and the replication net index. -/
structure NodeData where
  completeTagWithParents : List TagPath
  sourceName : Option String
  devComment : String
  bIsExplicitTag : Bool
  bIsRestrictedTag : Bool
  bAllowNonRestrictedChildren : Bool
  bNodeHasConflict : Bool
  bDescendantHasConflict : Bool
  bAncestorHasConflict : Bool
  netIndex : Nat
deriving DecidableEq, Repr

/-- The path-to-node map of the tree (MessageTagNodeMap, header line 842),
as an association list keyed by full tag path. -/
abbrev TagTree := List (TagPath × NodeData)

/-- First-match association lookup, the model of TMap::Find. -/
def assocFind {α β : Type} [DecidableEq α] : List (α × β) → α → Option β
  | [], _ => none
  | (k, v) :: rest, q => if q = k then some v else assocFind rest q

/-- Lookup of a node by full path (MessageTagNodeMap.Find). -/
def findNode (t : TagTree) (q : TagPath) : Option NodeData := assocFind t q

/-- Key-preserving value transformation of an association list. -/
def mapValues {α β : Type} (g : α → β → β) (t : List (α × β)) : List (α × β) :=
  t.map (fun e => (e.1, g e.1 e.2))

/-- The INVALID_TAGNETINDEX sentinel: the largest value of the uint16
FMessageTagNetIndex, the initial net index of every node. -/
def INVALID_TAGNETINDEX : Nat := 65535

/-- Modelled from the spec: the FMessageTagNode constructor (declared at header
line 201, body in the missing MessageTagsManager.cpp). The single-tag container
is the new complete tag consed onto the parent container; the net index starts
at the invalid sentinel until the network index is rebuilt. -/
def mkNode (cur : TagPath) (parentContainer : List TagPath) (src : Option String)
    (comment : String) (isExpl isRestricted allowNonRestrictedChildren : Bool) : NodeData :=
  { completeTagWithParents := cur :: parentContainer
    sourceName := src
    devComment := comment
    bIsExplicitTag := isExpl
    bIsRestrictedTag := isRestricted
    bAllowNonRestrictedChildren := allowNonRestrictedChildren
    bNodeHasConflict := false
    bDescendantHasConflict := false
    bAncestorHasConflict := false
    netIndex := INVALID_TAGNETINDEX }

/-- Is the first path a strict ancestor of the second (proper segment-wise
initial run of the other path). -/
def strictAncestor (a b : TagPath) : Bool := a.isPrefixOf b && !(a == b)

/-- The per-node effect of conflict marking at path p: the node itself gets
bNodeHasConflict, strict ancestors get bDescendantHasConflict, strict
descendants get bAncestorHasConflict; other nodes are untouched. -/
def conflictXform (p q : TagPath) (d : NodeData) : NodeData :=
  if q = p then { d with bNodeHasConflict := true }
  else if strictAncestor q p then { d with bDescendantHasConflict := true }
  else if strictAncestor p q then { d with bAncestorHasConflict := true }
  else d

/-- Modelled from the spec: conflict detection at a node marks the node and
propagates to ancestors and descendants (MarkChildrenOfNodeConflict, declared
at header line 815, and the ancestor walk live in the missing cpp). -/
def markConflictAt (t : TagTree) (p : TagPath) : TagTree := mapValues (conflictXform p) t

/-- Promotion of an implicit node hit by an explicit declaration: mark it
explicit and record source, comment and the declared restriction flags;
conflict flags and the stored container are untouched. -/
def promoteData (d : NodeData) (src comment : String)
    (isRestricted allowNonRestrictedChildren : Bool) : NodeData :=
  { d with bIsExplicitTag := true, sourceName := some src, devComment := comment,
           bIsRestrictedTag := isRestricted,
           bAllowNonRestrictedChildren := allowNonRestrictedChildren }

/-- Modelled from the spec: InsertTagIntoNodeArray when the terminal node
already exists (body in the missing cpp). A previously implicit node is
promoted (made explicit, source, comment and declared restriction flags
recorded) with no conflict; re-submitting the identical (source, flags) tuple
is a no-op; an explicit node hit from a different source or with different
restriction flags is marked conflicted with propagation. -/
def insertExistingTerminal (t : TagTree) (cur : TagPath) (d : NodeData) (src comment : String)
    (isRestricted allowNonRestrictedChildren : Bool) : TagTree :=
  if d.bIsExplicitTag = false then
    mapValues (fun k d0 =>
      if k = cur then promoteData d0 src comment isRestricted allowNonRestrictedChildren
      else d0) t
  else if d.sourceName = some src ∧ d.bIsRestrictedTag = isRestricted ∧
          d.bAllowNonRestrictedChildren = allowNonRestrictedChildren then
    t
  else
    markConflictAt t cur

/-- Modelled from the spec: the segment walk of AddTagTableRow and
InsertTagIntoNodeArray (declared at header lines 786 and 791, bodies in the
missing cpp). The path is walked segment by segment from the root; missing
intermediate nodes are created implicit, the terminal node is created explicit
or handled by insertExistingTerminal. The accumulated parent container is the
one handed to each created node. -/
def insertWalk (src comment : String) (isRestricted allowNonRestrictedChildren : Bool) :
    TagTree → TagPath → List TagPath → List String → TagTree
  | t, _, _, [] => t
  | t, pfx, parentCont, [s] =>
    (match findNode t (pfx ++ [s]) with
     | some d => insertExistingTerminal t (pfx ++ [s]) d src comment isRestricted allowNonRestrictedChildren
     | none => t ++ [(pfx ++ [s],
         mkNode (pfx ++ [s]) parentCont (some src) comment true isRestricted allowNonRestrictedChildren)])
  | t, pfx, parentCont, s :: s2 :: rest =>
    match findNode t (pfx ++ [s]) with
    | some d =>
      insertWalk src comment isRestricted allowNonRestrictedChildren
        t (pfx ++ [s]) d.completeTagWithParents (s2 :: rest)
    | none =>
      insertWalk src comment isRestricted allowNonRestrictedChildren
        (t ++ [(pfx ++ [s], mkNode (pfx ++ [s]) parentCont none "" false false true)])
        (pfx ++ [s]) ((pfx ++ [s]) :: parentCont) (s2 :: rest)

/-- One source row submission (the submitTagRow entry point of the spec). -/
structure TagRow where
  path : List String
  source : String
  comment : String
  isRestricted : Bool
  allowNonRestrictedChildren : Bool
deriving DecidableEq, Repr

/-- AddTagTableRow on the tree map: insert the row starting at the root. -/
def addTagTableRow (t : TagTree) (row : TagRow) : TagTree :=
  insertWalk row.source row.comment row.isRestricted row.allowNonRestrictedChildren
    t [] [] row.path

/-- A tree built from scratch by a sequence of row submissions. -/
def addTagTableRows (rows : List TagRow) : TagTree := rows.foldl addTagTableRow []

/-- DestroyMessageTagTree (header line 535): full-tree reconstruction starts
from the empty map. -/
def destroyMessageTagTree : TagTree := []

/-- The chain of nonempty initial runs of a path, shortest first. -/
def prefixChain : List String → List TagPath
  | [] => []
  | s :: rest => [s] :: (prefixChain rest).map (fun p => s :: p)

/-- The tag itself plus every strict ancestor, most-specific first. -/
def selfAndAncestors (p : TagPath) : List TagPath := (prefixChain p).reverse

/-- RequestMessageTagParents (declared at header line 428; spec-modelled body:
returns the stored single-tag container of the found node, which already holds
the complete tag at position 0 with the parents after it). -/
def requestMessageTagParents (t : TagTree) (q : TagPath) : Option (List TagPath) :=
  (findNode t q).map (fun d => d.completeTagWithParents)

/-- Sort key of the network index: full tag name, ascending. -/
def pathLe (a b : String) : Bool := decide (a ≤ b)

/-- All full tag names held by the tree (the collected non-root nodes). -/
def treeTagNames (t : TagTree) : List String := t.map (fun e => pathString e.1)

/-- Modelled from the spec: the table built by ConstructNetIndex (declared at
header line 812, body in the missing cpp): partition the tag names into the
commonly replicated allow-list and the rest, sort each partition by full tag
name ascending, concatenate with the commonly replicated partition first;
positions in the result are the net indices. -/
def constructNetIndexTable (names : List String) (common : List String) : List String :=
  (names.filter (fun s => common.contains s)).mergeSort pathLe ++
  (names.filter (fun s => !common.contains s)).mergeSort pathLe

/-- A deterministic string hash used by the table hash. -/
def strHash (s : String) : Nat :=
  s.foldl (fun h c => (h * 31 + c.toNat) % 4294967296) 5381

/-- Modelled from the spec: the stable hash over the ordered (index, full path)
sequence of the network index table, used for peer mismatch detection. -/
def indexTableHash (table : List String) : Nat :=
  (table.enum).foldl (fun h e => (h * 65599 + e.1 * 131 + strHash e.2) % 4294967296) 17

/-- The network-index slice of UMessageTagsManager state (header lines 638-648,
839-885): the tree, the commonly replicated allow-list, the cached index table,
its hash, the bit widths, the invalid index and the invalidation flag. -/
structure Manager where
  tree : TagTree
  commonlyReplicatedTags : List String
  netIndexFirstBitSegmentConfig : Nat
  networkMessageTagNodeIndex : List String
  networkMessageTagNodeIndexHash : Nat
  netIndexTrueBitNum : Nat
  netIndexFirstBitSegment : Nat
  invalidTagNetIndex : Nat
  bNetworkIndexInvalidated : Bool
deriving DecidableEq, Repr

/-- Modelled from the spec: the per-node index assignment of ConstructNetIndex,
setting every node's net index to its position in the table. -/
def assignNetIndices (table : List String) (t : TagTree) : TagTree :=
  mapValues (fun k d => { d with netIndex := table.indexOf (pathString k) }) t

/-- Modelled from the spec: ConstructNetIndex (declared at header line 812,
body in the missing cpp). Rebuilds the table from the current tag set and the
commonly replicated allow-list, assigns node indices, computes the invalid
index as the count, the true bit number as the base-2 ceiling logarithm of
count plus one, the first bit segment as its configured split point capped by
the true bit number, the table hash, and clears the invalidation flag. -/
def constructNetIndex (m : Manager) : Manager :=
  let table := constructNetIndexTable (treeTagNames m.tree) m.commonlyReplicatedTags
  { m with
    tree := assignNetIndices table m.tree
    networkMessageTagNodeIndex := table
    networkMessageTagNodeIndexHash := indexTableHash table
    netIndexTrueBitNum := Nat.clog 2 (table.length + 1)
    netIndexFirstBitSegment := min m.netIndexFirstBitSegmentConfig (Nat.clog 2 (table.length + 1))
    invalidTagNetIndex := table.length
    bNetworkIndexInvalidated := false }

/-- VerifyNetworkIndex (header lines 817-824): rebuild exactly when the index
is invalidated. -/
def verifyNetworkIndex (m : Manager) : Manager :=
  if m.bNetworkIndexInvalidated then constructNetIndex m else m

/-- InvalidateNetworkIndex (header line 825): only sets the flag. -/
def invalidateNetworkIndex (m : Manager) : Manager :=
  { m with bNetworkIndexInvalidated := true }

/-- GetNetworkMessageTagNodeIndexHash (header line 593): verify, then read. -/
def getNetworkMessageTagNodeIndexHash (m : Manager) : Nat × Manager :=
  let v := verifyNetworkIndex m
  (v.networkMessageTagNodeIndexHash, v)

/-- GetNetIndexTrueBitNum (header line 624): verify, then read. -/
def getNetIndexTrueBitNum (m : Manager) : Nat × Manager :=
  let v := verifyNetworkIndex m
  (v.netIndexTrueBitNum, v)

/-- GetNetIndexFirstBitSegment (header line 627): verify, then read. -/
def getNetIndexFirstBitSegment (m : Manager) : Nat × Manager :=
  let v := verifyNetworkIndex m
  (v.netIndexFirstBitSegment, v)

/-- GetInvalidTagNetIndex (header line 630): verify, then read. -/
def getInvalidTagNetIndex (m : Manager) : Nat × Manager :=
  let v := verifyNetworkIndex m
  (v.invalidTagNetIndex, v)

/-- GetNetworkMessageTagNodeIndex (header line 632): verify, then read. -/
def getNetworkMessageTagNodeIndex (m : Manager) : List String × Manager :=
  let v := verifyNetworkIndex m
  (v.networkMessageTagNodeIndex, v)

/-- GetTagNameFromNetIndex (declared at header line 620; spec-modelled body:
verify, then return the table entry at the index, none when out of range). -/
def getTagNameFromNetIndex (m : Manager) (i : Nat) : Option String × Manager :=
  let v := verifyNetworkIndex m
  (v.networkMessageTagNodeIndex[i]?, v)

/-- GetNetIndexFromTag (declared at header line 621; spec-modelled body:
verify, then the position of the tag name in the table, which is the table
length, that is the invalid index, when absent). -/
def getNetIndexFromTag (m : Manager) (s : String) : Nat × Manager :=
  let v := verifyNetworkIndex m
  (v.networkMessageTagNodeIndex.indexOf s, v)

/-- A tree mutation through the manager: AddTagTableRow inserts the row and
only invalidates the network index (spec-modelled wiring of the missing cpp:
mutations never rebuild). -/
def addTagRowToManager (m : Manager) (row : TagRow) : Manager :=
  { m with tree := addTagTableRow m.tree row, bNetworkIndexInvalidated := true }

/-- The operations of the network-index state machine that do not change the
tag set: invalidation and verify-with-lazy-rebuild. -/
inductive NetOp where
  | invalidate : NetOp
  | verify : NetOp
deriving DecidableEq, Repr

/-- Apply one network-index operation. -/
def applyNetOp (m : Manager) : NetOp → Manager
  | NetOp.invalidate => invalidateNetworkIndex m
  | NetOp.verify => verifyNetworkIndex m

/-- Apply a sequence of network-index operations. -/
def applyNetOps (m : Manager) (ops : List NetOp) : Manager := ops.foldl applyNetOp m

/-- The cached index is consistent: whenever the flag claims the index valid,
the cached table and hash are the ones the current tag set determines. Holds
for any freshly invalidated manager and is preserved by the state machine. -/
abbrev IndexConsistent (m : Manager) : Prop :=
  m.bNetworkIndexInvalidated = false →
    m.networkMessageTagNodeIndex =
      constructNetIndexTable (treeTagNames m.tree) m.commonlyReplicatedTags ∧
    m.networkMessageTagNodeIndexHash =
      indexTableHash (constructNetIndexTable (treeTagNames m.tree) m.commonlyReplicatedTags)

/-- FMessageTag validity: the tag name is not NAME_None (the empty name). -/
def tagIsValid (s : String) : Bool := !(s == "")

/-- FindTagNode (header lines 482-507), embedded from the source: plain map
find; on a miss and only under GIsEditor with a valid tag, redirect the name
once and retry the find; otherwise a null result. -/
def findTagNode (nodeMap : List (String × NodeData)) (gIsEditor : Bool)
    (redirect : String → String) (tag : String) : Option NodeData :=
  match assocFind nodeMap tag with
  | some n => some n
  | none =>
    if gIsEditor && tagIsValid tag then
      assocFind nodeMap (redirect tag)
    else
      none

/-- IsExplicitTag (header lines 254-259), with the WITH_EDITORONLY_DATA
conditional made explicit: in editor-data builds the stored flag, otherwise
unconditionally true. -/
def isExplicitTag (withEditorOnlyData : Bool) (d : NodeData) : Bool :=
  if withEditorOnlyData then d.bIsExplicitTag else true

/-- GetAllowNonRestrictedChildren (header lines 262-267). -/
def getAllowNonRestrictedChildren (withEditorOnlyData : Bool) (d : NodeData) : Bool :=
  if withEditorOnlyData then d.bAllowNonRestrictedChildren else true

/-- IsRestrictedMessageTag (header lines 270-275). -/
def isRestrictedMessageTag (withEditorOnlyData : Bool) (d : NodeData) : Bool :=
  if withEditorOnlyData then d.bIsRestrictedTag else true

/-- GetComment (header lines 278-286): the stored comment in editor-data
builds, the empty string otherwise. -/
def getComment (withEditorOnlyData : Bool) (d : NodeData) : String :=
  if withEditorOnlyData then d.devComment else ""

/-- GetNetIndex (header line 248): check(NetIndex != INVALID_TAGNETINDEX) then
return it; the failed check is the none result. -/
def getNetIndex (d : NodeData) : Option Nat :=
  if d.netIndex = INVALID_TAGNETINDEX then none else some d.netIndex

/-- A sample explicit node used by concrete witnesses. -/
def sampleNode : NodeData := mkNode ["A"] [] (some "S1") "" true false true

theorem assocFind_mapValues {α β : Type} [DecidableEq α] (g : α → β → β)
    (t : List (α × β)) (q : α) :
    assocFind (mapValues g t) q = (assocFind t q).map (g q) := by
  induction t with
  | nil => rfl
  | cons e rest ih =>
    obtain ⟨k, v⟩ := e
    by_cases h : q = k
    · subst h; simp [mapValues, assocFind]
    · simpa [mapValues, assocFind, h] using ih

theorem assocFind_append_of_some {α β : Type} [DecidableEq α] {t : List (α × β)} {q : α} {v : β}
    (l : List (α × β)) (h : assocFind t q = some v) : assocFind (t ++ l) q = some v := by
  induction t with
  | nil => simp [assocFind] at h
  | cons e rest ih =>
    obtain ⟨k, w⟩ := e
    by_cases hq : q = k
    · subst hq; simpa [assocFind] using h
    · simp only [assocFind, if_neg hq] at h
      simpa [assocFind, hq] using ih h

theorem assocFind_append_of_none {α β : Type} [DecidableEq α] {t : List (α × β)} {q : α}
    (l : List (α × β)) (h : assocFind t q = none) : assocFind (t ++ l) q = assocFind l q := by
  induction t with
  | nil => simp
  | cons e rest ih =>
    obtain ⟨k, w⟩ := e
    by_cases hq : q = k
    · subst hq; simp [assocFind] at h
    · simp only [assocFind, if_neg hq] at h
      simpa [assocFind, hq] using ih h

theorem assocFind_keys_of_some {α β : Type} [DecidableEq α] {t : List (α × β)} {q : α} {v : β}
    (h : assocFind t q = some v) : q ∈ t.map (fun e => e.1) := by
  induction t with
  | nil => simp [assocFind] at h
  | cons e rest ih =>
    obtain ⟨k, w⟩ := e
    by_cases hq : q = k
    · subst hq; simp
    · simp only [assocFind, if_neg hq] at h
      simp only [List.map_cons, List.mem_cons]
      exact Or.inr (ih h)

/-- C9: in builds without editor-only data the node predicates IsExplicitTag,
IsRestrictedMessageTag and GetAllowNonRestrictedChildren are unconditionally
true and GetComment is the empty string, while in editor-data builds they
expose the stored per-node fields. -/
theorem editor_free_build_predicates (d : NodeData) :
    isExplicitTag false d = true ∧
    isRestrictedMessageTag false d = true ∧
    getAllowNonRestrictedChildren false d = true ∧
    getComment false d = "" ∧
    isExplicitTag true d = d.bIsExplicitTag ∧
    isRestrictedMessageTag true d = d.bIsRestrictedTag ∧
    getAllowNonRestrictedChildren true d = d.bAllowNonRestrictedChildren := by
  simp [isExplicitTag, isRestrictedMessageTag, getAllowNonRestrictedChildren, getComment]

/-- C5: FindTagNode first attempts the plain map find, and when it hits the
redirector is never consulted; only on a miss, and only in the editor with a
valid tag, the name is offered to the redirector and the find is retried
exactly once; an absent tag always yields the representable none result. -/
theorem findTagNode_characterization (nodeMap : List (String × NodeData)) (gIsEditor : Bool)
    (redirect : String → String) (tag : String) :
    (∀ n, assocFind nodeMap tag = some n →
        findTagNode nodeMap gIsEditor redirect tag = some n) ∧
    (assocFind nodeMap tag = none →
        findTagNode nodeMap gIsEditor redirect tag =
          (if gIsEditor && tagIsValid tag then assocFind nodeMap (redirect tag) else none)) ∧
    (assocFind nodeMap tag = none → assocFind nodeMap (redirect tag) = none →
        findTagNode nodeMap gIsEditor redirect tag = none) := by
  refine ⟨?_, ?_, ?_⟩
  · intro n h; simp [findTagNode, h]
  · intro h; simp [findTagNode, h]
  · intro h h2
    simp only [findTagNode, h, h2]
    split <;> rfl

theorem findTagNode_characterization_witness :
    assocFind [("A", sampleNode)] "A" = some sampleNode ∧
    findTagNode [("A", sampleNode)] false (fun s => s) "A" = some sampleNode ∧
    assocFind [("A", sampleNode)] "B" = none ∧
    findTagNode [("A", sampleNode)] true (fun s => s) "B" = none :=
  ⟨by decide,
   (findTagNode_characterization [("A", sampleNode)] false (fun s => s) "A").1 sampleNode (by decide),
   by decide,
   (findTagNode_characterization [("A", sampleNode)] true (fun s => s) "B").2.2 (by decide) (by decide)⟩

/-- C4: every network-index read accessor (index table, table hash, true bit
number, first bit segment, invalid index) verifies first, so after any such
read the index state is valid (the invalidation flag is clear); a tree
mutation through AddTagTableRow only sets the invalidation flag and leaves
every cached index artifact untouched, never triggering the rebuild itself. -/
theorem accessors_rebuild_mutations_only_invalidate (m : Manager) (row : TagRow) :
    (getNetworkMessageTagNodeIndex m).2.bNetworkIndexInvalidated = false ∧
    (getNetworkMessageTagNodeIndexHash m).2.bNetworkIndexInvalidated = false ∧
    (getNetIndexTrueBitNum m).2.bNetworkIndexInvalidated = false ∧
    (getNetIndexFirstBitSegment m).2.bNetworkIndexInvalidated = false ∧
    (getInvalidTagNetIndex m).2.bNetworkIndexInvalidated = false ∧
    (addTagRowToManager m row).bNetworkIndexInvalidated = true ∧
    (addTagRowToManager m row).networkMessageTagNodeIndex = m.networkMessageTagNodeIndex ∧
    (addTagRowToManager m row).networkMessageTagNodeIndexHash = m.networkMessageTagNodeIndexHash ∧
    (addTagRowToManager m row).netIndexTrueBitNum = m.netIndexTrueBitNum ∧
    (addTagRowToManager m row).netIndexFirstBitSegment = m.netIndexFirstBitSegment ∧
    (addTagRowToManager m row).invalidTagNetIndex = m.invalidTagNetIndex := by
  by_cases h : m.bNetworkIndexInvalidated <;>
    simp [getNetworkMessageTagNodeIndex, getNetworkMessageTagNodeIndexHash,
      getNetIndexTrueBitNum, getNetIndexFirstBitSegment, getInvalidTagNetIndex,
      verifyNetworkIndex, constructNetIndex, addTagRowToManager, h]

theorem sorted_mergeSort_le (l : List String) :
    List.Sorted (fun a b : String => a ≤ b) (l.mergeSort pathLe) := by
  have htrans : ∀ a b c : String, pathLe a b = true → pathLe b c = true → pathLe a c = true := by
    intro a b c hab hbc
    simp only [pathLe, decide_eq_true_eq] at hab hbc ⊢
    exact le_trans hab hbc
  have htotal : ∀ a b : String, (pathLe a b || pathLe b a) = true := by
    intro a b
    simp only [pathLe, Bool.or_eq_true, decide_eq_true_eq]
    exact le_total a b
  exact (List.sorted_mergeSort htrans htotal l).imp
    (fun hab => by simpa [pathLe] using hab)

theorem mergeSort_eq_of_perm {l1 l2 : List String} (h : l1.Perm l2) :
    l1.mergeSort pathLe = l2.mergeSort pathLe := by
  refine List.eq_of_perm_of_sorted ?_ (sorted_mergeSort_le l1) (sorted_mergeSort_le l2)
  exact (List.mergeSort_perm l1 pathLe).trans (h.trans (List.mergeSort_perm l2 pathLe).symm)

theorem constructNetIndexTable_eq_of_perm {l1 l2 : List String} (common : List String)
    (h : l1.Perm l2) :
    constructNetIndexTable l1 common = constructNetIndexTable l2 common := by
  unfold constructNetIndexTable
  rw [mergeSort_eq_of_perm (h.filter _), mergeSort_eq_of_perm (h.filter _)]

theorem constructNetIndexTable_perm_names (names common : List String) :
    (constructNetIndexTable names common).Perm names := by
  unfold constructNetIndexTable
  exact ((List.mergeSort_perm _ _).append (List.mergeSort_perm _ _)).trans
    (List.filter_append_perm _ names)

theorem constructNetIndexTable_length (names common : List String) :
    (constructNetIndexTable names common).length = names.length :=
  (constructNetIndexTable_perm_names names common).length_eq

theorem treeTagNames_assignNetIndices (table : List String) (t : TagTree) :
    treeTagNames (assignNetIndices table t) = treeTagNames t := by
  unfold treeTagNames assignNetIndices mapValues
  rw [List.map_map]
  rfl

theorem pathString_mem_treeTagNames {t : TagTree} {q : TagPath} {d : NodeData}
    (h : findNode t q = some d) : pathString q ∈ treeTagNames t := by
  have hk := assocFind_keys_of_some h
  rcases List.mem_map.1 hk with ⟨e, he, hq⟩
  exact List.mem_map.2 ⟨e, he, by rw [hq]⟩

/-- C2: after a network-index rebuild over N registered tags the invalid index
sentinel equals N (one past the last valid index), every index below N still
resolves to some tag, and indexToTag applied to the sentinel returns none. -/
theorem invalidTagNetIndex_spec (m : Manager) :
    (constructNetIndex m).invalidTagNetIndex = (treeTagNames m.tree).length ∧
    (getTagNameFromNetIndex (constructNetIndex m)
        ((constructNetIndex m).invalidTagNetIndex)).1 = none ∧
    ∀ i, i < (treeTagNames m.tree).length →
      ((getTagNameFromNetIndex (constructNetIndex m) i).1).isSome = true := by
  have hlen := constructNetIndexTable_length (treeTagNames m.tree) m.commonlyReplicatedTags
  refine ⟨by simp [constructNetIndex, hlen], ?_, ?_⟩
  · simp only [getTagNameFromNetIndex, verifyNetworkIndex, constructNetIndex]
    simp [List.getElem?_eq_none, hlen]
  · intro i hi
    simp only [getTagNameFromNetIndex, verifyNetworkIndex, constructNetIndex]
    simp only [Bool.false_eq_true, if_false]
    rw [List.getElem?_eq_getElem (by rw [hlen]; exact hi)]
    rfl

theorem invalidTagNetIndex_spec_witness :
    (0 : Nat) < (treeTagNames [(["A"], sampleNode)]).length ∧
    ((getTagNameFromNetIndex
        (constructNetIndex
          { tree := [(["A"], sampleNode)], commonlyReplicatedTags := []
            netIndexFirstBitSegmentConfig := 16, networkMessageTagNodeIndex := []
            networkMessageTagNodeIndexHash := 0, netIndexTrueBitNum := 0
            netIndexFirstBitSegment := 0, invalidTagNetIndex := 0
            bNetworkIndexInvalidated := true }) 0).1).isSome = true :=
  ⟨by decide,
   (invalidTagNetIndex_spec
      { tree := [(["A"], sampleNode)], commonlyReplicatedTags := []
        netIndexFirstBitSegmentConfig := 16, networkMessageTagNodeIndex := []
        networkMessageTagNodeIndexHash := 0, netIndexTrueBitNum := 0
        netIndexFirstBitSegment := 0, invalidTagNetIndex := 0
        bNetworkIndexInvalidated := true }).2.2 0 (by decide)⟩

/-- C3: the replication bit width computed by the rebuild equals the base-2
ceiling logarithm of N plus one, its representable range covers the invalid
index sentinel, and for every tag set that fits the uint16 index space it
never exceeds 16 bits. -/
theorem netIndexTrueBitNum_spec (m : Manager)
    (h : (treeTagNames m.tree).length ≤ 65535) :
    (constructNetIndex m).netIndexTrueBitNum =
      Nat.clog 2 ((treeTagNames m.tree).length + 1) ∧
    (constructNetIndex m).invalidTagNetIndex <
      2 ^ (constructNetIndex m).netIndexTrueBitNum ∧
    (constructNetIndex m).netIndexTrueBitNum ≤ 16 := by
  have hlen := constructNetIndexTable_length (treeTagNames m.tree) m.commonlyReplicatedTags
  refine ⟨by simp [constructNetIndex, hlen], ?_, ?_⟩
  · have hcov := Nat.le_pow_clog (by norm_num : 1 < 2)
      ((constructNetIndexTable (treeTagNames m.tree) m.commonlyReplicatedTags).length + 1)
    simp only [constructNetIndex]
    omega
  · have h16 : (treeTagNames m.tree).length + 1 ≤ 2 ^ 16 := by norm_num; omega
    have := (Nat.le_pow_iff_clog_le (by norm_num : 1 < 2)).1 h16
    simpa [constructNetIndex, hlen] using this

theorem netIndexTrueBitNum_spec_witness :
    (treeTagNames [(["A"], sampleNode)]).length ≤ 65535 ∧
    (constructNetIndex
        { tree := [(["A"], sampleNode)], commonlyReplicatedTags := []
          netIndexFirstBitSegmentConfig := 16, networkMessageTagNodeIndex := []
          networkMessageTagNodeIndexHash := 0, netIndexTrueBitNum := 0
          netIndexFirstBitSegment := 0, invalidTagNetIndex := 0
          bNetworkIndexInvalidated := true }).netIndexTrueBitNum =
      Nat.clog 2 ((treeTagNames [(["A"], sampleNode)]).length + 1) :=
  ⟨by decide,
   (netIndexTrueBitNum_spec
      { tree := [(["A"], sampleNode)], commonlyReplicatedTags := []
        netIndexFirstBitSegmentConfig := 16, networkMessageTagNodeIndex := []
        networkMessageTagNodeIndexHash := 0, netIndexTrueBitNum := 0
        netIndexFirstBitSegment := 0, invalidTagNetIndex := 0
        bNetworkIndexInvalidated := true } (by decide)).1⟩

theorem findNode_assignNetIndices (table : List String) (t : TagTree) (q : TagPath) :
    findNode (assignNetIndices table t) q =
      (findNode t q).map (fun d => { d with netIndex := table.indexOf (pathString q) }) :=
  assocFind_mapValues _ t q

/-- A fresh manager: tree and allow-list set, caches empty, index invalidated
(the initial state of the network-index state machine). -/
def freshManager (t : TagTree) (common : List String) : Manager :=
  { tree := t
    commonlyReplicatedTags := common
    netIndexFirstBitSegmentConfig := 16
    networkMessageTagNodeIndex := []
    networkMessageTagNodeIndexHash := 0
    netIndexTrueBitNum := 0
    netIndexFirstBitSegment := 0
    invalidTagNetIndex := 0
    bNetworkIndexInvalidated := true }

/-- C10: GetNetIndex checks the stored index against the invalid sentinel.
After a rebuild of a manager whose tag count fits the uint16 index space,
every node present in the tree passes the check and yields its table position;
a freshly constructed node, whose index was never assigned, fails the check
and yields the none result. -/
theorem getNetIndex_spec (m : Manager) (q : TagPath) (d0 : NodeData)
    (hcount : (treeTagNames m.tree).length ≤ 65535)
    (hfind : findNode m.tree q = some d0) :
    (∃ d, findNode (constructNetIndex m).tree q = some d ∧
       getNetIndex d =
         some ((constructNetIndex m).networkMessageTagNodeIndex.indexOf (pathString q)) ∧
       (getNetIndex d).isSome = true) ∧
    ∀ cur parentCont src comment isExpl isRestricted allow,
      getNetIndex (mkNode cur parentCont src comment isExpl isRestricted allow) = none := by
  constructor
  · have htree : (constructNetIndex m).tree =
        assignNetIndices
          (constructNetIndexTable (treeTagNames m.tree) m.commonlyReplicatedTags) m.tree := rfl
    have hmem : pathString q ∈
        constructNetIndexTable (treeTagNames m.tree) m.commonlyReplicatedTags :=
      ((constructNetIndexTable_perm_names (treeTagNames m.tree)
          m.commonlyReplicatedTags).mem_iff).2 (pathString_mem_treeTagNames hfind)
    have hidx : (constructNetIndexTable (treeTagNames m.tree)
          m.commonlyReplicatedTags).indexOf (pathString q) <
        (constructNetIndexTable (treeTagNames m.tree) m.commonlyReplicatedTags).length :=
      List.indexOf_lt_length.2 hmem
    have hlen := constructNetIndexTable_length (treeTagNames m.tree) m.commonlyReplicatedTags
    refine ⟨{ d0 with netIndex := (constructNetIndexTable (treeTagNames m.tree)
        m.commonlyReplicatedTags).indexOf (pathString q) }, ?_, ?_, ?_⟩
    · rw [htree, findNode_assignNetIndices, hfind]
      rfl
    · have hne : (constructNetIndexTable (treeTagNames m.tree)
          m.commonlyReplicatedTags).indexOf (pathString q) ≠ INVALID_TAGNETINDEX := by
        simp only [INVALID_TAGNETINDEX]
        omega
      simp [getNetIndex, hne]
      rfl
    · have hne : (constructNetIndexTable (treeTagNames m.tree)
          m.commonlyReplicatedTags).indexOf (pathString q) ≠ INVALID_TAGNETINDEX := by
        simp only [INVALID_TAGNETINDEX]
        omega
      simp [getNetIndex, hne]
  · intro cur parentCont src comment isExpl isRestricted allow
    simp [getNetIndex, mkNode]

theorem getNetIndex_spec_witness :
    (treeTagNames (freshManager [(["A"], sampleNode)] []).tree).length ≤ 65535 ∧
    findNode (freshManager [(["A"], sampleNode)] []).tree ["A"] = some sampleNode ∧
    ((∃ d, findNode (constructNetIndex (freshManager [(["A"], sampleNode)] [])).tree ["A"] = some d ∧
        getNetIndex d = some ((constructNetIndex
          (freshManager [(["A"], sampleNode)] [])).networkMessageTagNodeIndex.indexOf
            (pathString ["A"])) ∧
        (getNetIndex d).isSome = true) ∧
     ∀ cur parentCont src comment isExpl isRestricted allow,
       getNetIndex (mkNode cur parentCont src comment isExpl isRestricted allow) = none) :=
  ⟨by decide, by decide,
   getNetIndex_spec (freshManager [(["A"], sampleNode)] []) ["A"] sampleNode
     (by decide) (by decide)⟩

theorem verifyNetworkIndex_reads (m : Manager) (h : IndexConsistent m) :
    (verifyNetworkIndex m).networkMessageTagNodeIndex =
      constructNetIndexTable (treeTagNames m.tree) m.commonlyReplicatedTags ∧
    (verifyNetworkIndex m).networkMessageTagNodeIndexHash =
      indexTableHash (constructNetIndexTable (treeTagNames m.tree) m.commonlyReplicatedTags) := by
  by_cases hf : m.bNetworkIndexInvalidated
  · simp [verifyNetworkIndex, hf, constructNetIndex]
  · have hh := h (by simpa using hf)
    simp [verifyNetworkIndex, hf, hh.1, hh.2]

theorem applyNetOp_preserves (m : Manager) (op : NetOp) (h : IndexConsistent m) :
    IndexConsistent (applyNetOp m op) ∧
    treeTagNames (applyNetOp m op).tree = treeTagNames m.tree ∧
    (applyNetOp m op).commonlyReplicatedTags = m.commonlyReplicatedTags := by
  cases op with
  | invalidate =>
    refine ⟨?_, rfl, rfl⟩
    intro hfalse
    simp [applyNetOp, invalidateNetworkIndex] at hfalse
  | verify =>
    by_cases hf : m.bNetworkIndexInvalidated
    · have hn : treeTagNames (constructNetIndex m).tree = treeTagNames m.tree := by
        simp [constructNetIndex, treeTagNames_assignNetIndices]
      refine ⟨?_, ?_, ?_⟩
      · intro _
        constructor
        · simp [applyNetOp, verifyNetworkIndex, hf, constructNetIndex,
            treeTagNames_assignNetIndices]
        · simp [applyNetOp, verifyNetworkIndex, hf, constructNetIndex,
            treeTagNames_assignNetIndices]
      · simp [applyNetOp, verifyNetworkIndex, hf, hn]
      · simp [applyNetOp, verifyNetworkIndex, hf, constructNetIndex]
    · exact ⟨by simpa [applyNetOp, verifyNetworkIndex, hf] using h,
        by simp [applyNetOp, verifyNetworkIndex, hf],
        by simp [applyNetOp, verifyNetworkIndex, hf]⟩

theorem applyNetOps_preserves (ops : List NetOp) (m : Manager) (h : IndexConsistent m) :
    IndexConsistent (applyNetOps m ops) ∧
    treeTagNames (applyNetOps m ops).tree = treeTagNames m.tree ∧
    (applyNetOps m ops).commonlyReplicatedTags = m.commonlyReplicatedTags := by
  induction ops generalizing m with
  | nil => exact ⟨h, rfl, rfl⟩
  | cons op rest ih =>
    have h1 := applyNetOp_preserves m op h
    have h2 := ih (applyNetOp m op) h1.1
    have hstep : applyNetOps m (op :: rest) = applyNetOps (applyNetOp m op) rest := rfl
    refine ⟨hstep ▸ h2.1, ?_, ?_⟩
    · rw [hstep, h2.2.1, h1.2.1]
    · rw [hstep, h2.2.2, h1.2.2]

/-- C1: for two managers holding permutation-identical tag sets and the same
commonly replicated allow-list, and whose cached index is consistent with its
flag (as in the initial, invalidated state), the network-index reads after any
two sequences of invalidate/rebuild cycles agree: identical index tables,
identical table hashes and identical tag-to-index mappings. -/
theorem netIndex_determinism (m1 m2 : Manager) (ops1 ops2 : List NetOp)
    (h1 : IndexConsistent m1) (h2 : IndexConsistent m2)
    (ht : (treeTagNames m1.tree).Perm (treeTagNames m2.tree))
    (hc : m1.commonlyReplicatedTags = m2.commonlyReplicatedTags) :
    (getNetworkMessageTagNodeIndex (applyNetOps m1 ops1)).1 =
      (getNetworkMessageTagNodeIndex (applyNetOps m2 ops2)).1 ∧
    (getNetworkMessageTagNodeIndexHash (applyNetOps m1 ops1)).1 =
      (getNetworkMessageTagNodeIndexHash (applyNetOps m2 ops2)).1 ∧
    ∀ s, (getNetIndexFromTag (applyNetOps m1 ops1) s).1 =
      (getNetIndexFromTag (applyNetOps m2 ops2) s).1 := by
  have p1 := applyNetOps_preserves ops1 m1 h1
  have p2 := applyNetOps_preserves ops2 m2 h2
  have r1 := verifyNetworkIndex_reads _ p1.1
  have r2 := verifyNetworkIndex_reads _ p2.1
  have key : constructNetIndexTable (treeTagNames (applyNetOps m1 ops1).tree)
        (applyNetOps m1 ops1).commonlyReplicatedTags =
      constructNetIndexTable (treeTagNames (applyNetOps m2 ops2).tree)
        (applyNetOps m2 ops2).commonlyReplicatedTags := by
    rw [p1.2.1, p1.2.2, p2.2.1, p2.2.2, hc]
    exact constructNetIndexTable_eq_of_perm _ ht
  refine ⟨?_, ?_, ?_⟩
  · show (verifyNetworkIndex (applyNetOps m1 ops1)).networkMessageTagNodeIndex =
      (verifyNetworkIndex (applyNetOps m2 ops2)).networkMessageTagNodeIndex
    rw [r1.1, r2.1, key]
  · show (verifyNetworkIndex (applyNetOps m1 ops1)).networkMessageTagNodeIndexHash =
      (verifyNetworkIndex (applyNetOps m2 ops2)).networkMessageTagNodeIndexHash
    rw [r1.2, r2.2, key]
  · intro s
    show (verifyNetworkIndex (applyNetOps m1 ops1)).networkMessageTagNodeIndex.indexOf s =
      (verifyNetworkIndex (applyNetOps m2 ops2)).networkMessageTagNodeIndex.indexOf s
    rw [r1.1, r2.1, key]

theorem netIndex_determinism_witness :
    IndexConsistent (freshManager [(["A"], sampleNode), (["A", "B"], sampleNode)] []) ∧
    IndexConsistent (freshManager [(["A", "B"], sampleNode), (["A"], sampleNode)] []) ∧
    (treeTagNames (freshManager [(["A"], sampleNode), (["A", "B"], sampleNode)] []).tree).Perm
      (treeTagNames (freshManager [(["A", "B"], sampleNode), (["A"], sampleNode)] []).tree) ∧
    (getNetworkMessageTagNodeIndex
        (applyNetOps (freshManager [(["A"], sampleNode), (["A", "B"], sampleNode)] [])
          [NetOp.verify, NetOp.invalidate, NetOp.verify])).1 =
      (getNetworkMessageTagNodeIndex
        (applyNetOps (freshManager [(["A", "B"], sampleNode), (["A"], sampleNode)] [])
          [NetOp.verify])).1 :=
  ⟨by decide, by decide, by decide,
   (netIndex_determinism
      (freshManager [(["A"], sampleNode), (["A", "B"], sampleNode)] [])
      (freshManager [(["A", "B"], sampleNode), (["A"], sampleNode)] [])
      [NetOp.verify, NetOp.invalidate, NetOp.verify] [NetOp.verify]
      (by decide) (by decide) (by decide) (by decide)).1⟩

theorem findNode_def (t : TagTree) (q : TagPath) : findNode t q = assocFind t q := rfl

theorem insertWalk_nil (src comment : String) (r a : Bool) (t : TagTree) (pfx : TagPath)
    (cont : List TagPath) : insertWalk src comment r a t pfx cont [] = t := rfl

theorem insertWalk_single (src comment : String) (r a : Bool) (t : TagTree) (pfx : TagPath)
    (cont : List TagPath) (s : String) :
    insertWalk src comment r a t pfx cont [s] =
      match findNode t (pfx ++ [s]) with
      | some d => insertExistingTerminal t (pfx ++ [s]) d src comment r a
      | none => t ++ [(pfx ++ [s], mkNode (pfx ++ [s]) cont (some src) comment true r a)] := rfl

theorem insertWalk_cons2 (src comment : String) (r a : Bool) (t : TagTree) (pfx : TagPath)
    (cont : List TagPath) (s s2 : String) (rest : List String) :
    insertWalk src comment r a t pfx cont (s :: s2 :: rest) =
      match findNode t (pfx ++ [s]) with
      | some d =>
        insertWalk src comment r a t (pfx ++ [s]) d.completeTagWithParents (s2 :: rest)
      | none =>
        insertWalk src comment r a
          (t ++ [(pfx ++ [s], mkNode (pfx ++ [s]) cont none "" false false true)])
          (pfx ++ [s]) ((pfx ++ [s]) :: cont) (s2 :: rest) := rfl

theorem findNode_append_self {t : TagTree} {k : TagPath} (nd : NodeData)
    (h : findNode t k = none) : findNode (t ++ [(k, nd)]) k = some nd := by
  rw [findNode_def, assocFind_append_of_none [(k, nd)] h]
  simp [assocFind]

theorem findNode_append_cases {t : TagTree} {k q : TagPath} {nd d : NodeData}
    (h : findNode (t ++ [(k, nd)]) q = some d) :
    findNode t q = some d ∨ (findNode t q = none ∧ q = k ∧ d = nd) := by
  cases hq : findNode t q with
  | some d0 =>
    have h2 : findNode (t ++ [(k, nd)]) q = some d0 :=
      assocFind_append_of_some [(k, nd)] hq
    rw [h] at h2
    injection h2 with hd
    exact Or.inl (by rw [hd])
  | none =>
    have h2 : findNode (t ++ [(k, nd)]) q = assocFind [(k, nd)] q :=
      assocFind_append_of_none [(k, nd)] hq
    rw [h] at h2
    by_cases hk : q = k
    · subst hk
      simp [assocFind] at h2
      exact Or.inr ⟨rfl, rfl, h2⟩
    · simp [assocFind, hk] at h2

theorem findNode_insertExistingTerminal (t : TagTree) (cur : TagPath) (dt : NodeData)
    (src comment : String) (r a : Bool) (q : TagPath) :
    findNode (insertExistingTerminal t cur dt src comment r a) q =
      if dt.bIsExplicitTag = false then
        (findNode t q).map (fun d0 =>
          if q = cur then promoteData d0 src comment r a else d0)
      else if dt.sourceName = some src ∧ dt.bIsRestrictedTag = r ∧
          dt.bAllowNonRestrictedChildren = a then
        findNode t q
      else
        (findNode t q).map (conflictXform cur q) := by
  unfold insertExistingTerminal
  by_cases h1 : dt.bIsExplicitTag = false
  · simp only [if_pos h1]
    exact assocFind_mapValues _ t q
  · simp only [if_neg h1]
    by_cases h2 : dt.sourceName = some src ∧ dt.bIsRestrictedTag = r ∧
        dt.bAllowNonRestrictedChildren = a
    · simp only [if_pos h2]
    · simp only [if_neg h2]
      exact assocFind_mapValues _ t q

theorem conflictXform_self (p : TagPath) (d : NodeData) :
    conflictXform p p d = { d with bNodeHasConflict := true } := by
  simp [conflictXform]

theorem conflictXform_idem (p q : TagPath) (d : NodeData) :
    conflictXform p q (conflictXform p q d) = conflictXform p q d := by
  unfold conflictXform
  by_cases h1 : q = p
  · simp [h1]
  · by_cases h2 : strictAncestor q p <;> by_cases h3 : strictAncestor p q <;>
      simp [h1, h2, h3]

theorem markConflictAt_idem (t : TagTree) (p : TagPath) :
    markConflictAt (markConflictAt t p) p = markConflictAt t p := by
  unfold markConflictAt mapValues
  rw [List.map_map]
  apply List.map_congr_left
  intro e _
  simp [conflictXform_idem]

theorem strictAncestor_parts {a b : TagPath} (h : strictAncestor a b = true) :
    a.isPrefixOf b = true ∧ a ≠ b := by
  unfold strictAncestor at h
  simp only [Bool.and_eq_true, Bool.not_eq_true'] at h
  exact ⟨h.1, by simpa using h.2⟩

theorem strictAncestor_asymm {a b : TagPath} (h : strictAncestor a b = true) :
    strictAncestor b a = false := by
  obtain ⟨hpre, hab⟩ := strictAncestor_parts h
  cases hba : b.isPrefixOf a with
  | false => simp [strictAncestor, hba]
  | true =>
    have h1 : a <+: b := List.isPrefixOf_iff_prefix.1 hpre
    have h2 : b <+: a := List.isPrefixOf_iff_prefix.1 hba
    exact absurd (h1.eq_of_length (Nat.le_antisymm h1.length_le h2.length_le)) hab

theorem strictAncestor_ne {a b : TagPath} (h : strictAncestor a b = true) : a ≠ b :=
  (strictAncestor_parts h).2

/-- Monotone growth of the three conflict flags between two node states. -/
def FlagMono (d d' : NodeData) : Prop :=
  (d.bNodeHasConflict = true → d'.bNodeHasConflict = true) ∧
  (d.bDescendantHasConflict = true → d'.bDescendantHasConflict = true) ∧
  (d.bAncestorHasConflict = true → d'.bAncestorHasConflict = true)

theorem flagMono_refl (d : NodeData) : FlagMono d d :=
  ⟨fun h => h, fun h => h, fun h => h⟩

theorem flagMono_promoteData (d : NodeData) (src comment : String) (r a : Bool) :
    FlagMono d (promoteData d src comment r a) :=
  ⟨fun h => h, fun h => h, fun h => h⟩

theorem flagMono_conflictXform (p q : TagPath) (d : NodeData) :
    FlagMono d (conflictXform p q d) := by
  unfold conflictXform
  by_cases h1 : q = p
  · simp [h1, FlagMono]
  · by_cases h2 : strictAncestor q p <;> by_cases h3 : strictAncestor p q <;>
      simp [h1, h2, h3, FlagMono]

theorem findNode_insertWalk_mono (src comment : String) (r a : Bool) (segs : List String) :
    ∀ (t : TagTree) (pfx : TagPath) (cont : List TagPath) (q : TagPath) (d : NodeData),
      findNode t q = some d →
      ∃ d', findNode (insertWalk src comment r a t pfx cont segs) q = some d' ∧
        FlagMono d d' := by
  induction segs with
  | nil =>
    intro t pfx cont q d h
    exact ⟨d, h, flagMono_refl d⟩
  | cons s rest ih =>
    intro t pfx cont q d h
    cases rest with
    | nil =>
      rw [insertWalk_single]
      cases hf : findNode t (pfx ++ [s]) with
      | none =>
        exact ⟨d, assocFind_append_of_some [(pfx ++ [s],
          mkNode (pfx ++ [s]) cont (some src) comment true r a)] h, flagMono_refl d⟩
      | some dt =>
        rw [findNode_insertExistingTerminal]
        by_cases h1 : dt.bIsExplicitTag = false
        · simp only [if_pos h1, h, Option.map_some']
          by_cases hq : q = pfx ++ [s]
          · exact ⟨_, rfl, by simp only [if_pos hq]; exact flagMono_promoteData d src comment r a⟩
          · exact ⟨_, rfl, by simp only [if_neg hq]; exact flagMono_refl d⟩
        · simp only [if_neg h1]
          by_cases h2 : dt.sourceName = some src ∧ dt.bIsRestrictedTag = r ∧
              dt.bAllowNonRestrictedChildren = a
          · simp only [if_pos h2]
            exact ⟨d, h, flagMono_refl d⟩
          · simp only [if_neg h2, h, Option.map_some']
            exact ⟨_, rfl, flagMono_conflictXform (pfx ++ [s]) q d⟩
    | cons s2 rest2 =>
      rw [insertWalk_cons2]
      cases hf : findNode t (pfx ++ [s]) with
      | some dt => exact ih t (pfx ++ [s]) dt.completeTagWithParents q d h
      | none =>
        exact ih _ (pfx ++ [s]) ((pfx ++ [s]) :: cont) q d
          (assocFind_append_of_some [(pfx ++ [s],
            mkNode (pfx ++ [s]) cont none "" false false true)] h)

/-- C7: conflict flags are monotone. Conflict marking at a node sets its own
hasConflict flag and propagates descendantHasConflict to every strict ancestor
present and ancestorHasConflict to every strict descendant present; no
insertion ever clears any of the three flags of any node; full-tree
reconstruction starts from the empty tree, where no flag is set. -/
theorem conflict_flags_monotone :
    (∀ (t : TagTree) (segs : List String) (src comment : String) (r a : Bool)
        (q : TagPath) (d : NodeData), findNode t q = some d →
      ∃ d', findNode (insertWalk src comment r a t [] [] segs) q = some d' ∧
        (d.bNodeHasConflict = true → d'.bNodeHasConflict = true) ∧
        (d.bDescendantHasConflict = true → d'.bDescendantHasConflict = true) ∧
        (d.bAncestorHasConflict = true → d'.bAncestorHasConflict = true)) ∧
    (∀ (t : TagTree) (p q : TagPath) (d : NodeData), findNode t q = some d →
      findNode (markConflictAt t p) q = some (conflictXform p q d) ∧
      (q = p → (conflictXform p q d).bNodeHasConflict = true) ∧
      (strictAncestor q p = true → (conflictXform p q d).bDescendantHasConflict = true) ∧
      (strictAncestor p q = true → (conflictXform p q d).bAncestorHasConflict = true)) ∧
    (∀ q : TagPath, findNode destroyMessageTagTree q = none) := by
  refine ⟨?_, ?_, fun q => rfl⟩
  · intro t segs src comment r a q d h
    exact findNode_insertWalk_mono src comment r a segs t [] [] q d h
  · intro t p q d h
    refine ⟨?_, ?_, ?_, ?_⟩
    · have h' : assocFind t q = some d := h
      rw [markConflictAt, findNode_def, assocFind_mapValues, h']
      rfl
    · intro hq
      subst hq
      rw [conflictXform_self]
    · intro hqp
      have hne : q ≠ p := strictAncestor_ne hqp
      simp [conflictXform, hne, hqp]
    · intro hpq
      have hne : q ≠ p := (strictAncestor_ne hpq).symm
      have hqp : strictAncestor q p = false := strictAncestor_asymm hpq
      simp [conflictXform, hne, hqp, hpq]

theorem conflict_flags_monotone_witness :
    findNode [(["A"], sampleNode), (["A", "B"], sampleNode)] ["A"] = some sampleNode ∧
    (findNode (markConflictAt [(["A"], sampleNode), (["A", "B"], sampleNode)] ["A", "B"]) ["A"] =
        some (conflictXform ["A", "B"] ["A"] sampleNode) ∧
      (["A"] = ["A", "B"] →
        (conflictXform ["A", "B"] ["A"] sampleNode).bNodeHasConflict = true) ∧
      (strictAncestor ["A"] ["A", "B"] = true →
        (conflictXform ["A", "B"] ["A"] sampleNode).bDescendantHasConflict = true) ∧
      (strictAncestor ["A", "B"] ["A"] = true →
        (conflictXform ["A", "B"] ["A"] sampleNode).bAncestorHasConflict = true)) :=
  ⟨by decide,
   conflict_flags_monotone.2.1 [(["A"], sampleNode), (["A", "B"], sampleNode)]
     ["A", "B"] ["A"] sampleNode (by decide)⟩

theorem prefixChain_append (pfx : TagPath) (s : String) :
    prefixChain (pfx ++ [s]) = prefixChain pfx ++ [pfx ++ [s]] := by
  induction pfx with
  | nil => rfl
  | cons x xs ih => simp [prefixChain, ih, List.map_append]

theorem selfAndAncestors_append (pfx : TagPath) (s : String) :
    selfAndAncestors (pfx ++ [s]) = (pfx ++ [s]) :: selfAndAncestors pfx := by
  unfold selfAndAncestors
  rw [prefixChain_append, List.reverse_append]
  rfl

/-- Every node of the tree stores exactly its own complete tag followed by its
strict ancestors, most specific first, as its single-tag container. -/
def ContainersOk (t : TagTree) : Prop :=
  ∀ q d, findNode t q = some d → d.completeTagWithParents = selfAndAncestors q

theorem containersOk_insertExistingTerminal (t : TagTree) (cur : TagPath) (dt : NodeData)
    (src comment : String) (r a : Bool) (h : ContainersOk t) :
    ContainersOk (insertExistingTerminal t cur dt src comment r a) := by
  intro q d hf
  rw [findNode_insertExistingTerminal] at hf
  by_cases h1 : dt.bIsExplicitTag = false
  · rw [if_pos h1] at hf
    rcases Option.map_eq_some'.1 hf with ⟨d0, hd0, hde⟩
    subst hde
    by_cases hq : q = cur
    · simp only [if_pos hq]
      exact h q d0 hd0
    · simp only [if_neg hq]
      exact h q d0 hd0
  · rw [if_neg h1] at hf
    by_cases h2 : dt.sourceName = some src ∧ dt.bIsRestrictedTag = r ∧
        dt.bAllowNonRestrictedChildren = a
    · rw [if_pos h2] at hf
      exact h q d hf
    · rw [if_neg h2] at hf
      rcases Option.map_eq_some'.1 hf with ⟨d0, hd0, hde⟩
      subst hde
      have hc := h q d0 hd0
      unfold conflictXform
      by_cases hq : q = cur
      · simpa [hq] using hc
      · by_cases hqa : strictAncestor q cur = true <;>
          by_cases hca : strictAncestor cur q = true <;>
          simp [hq, hqa, hca, hc]

theorem containersOk_insertWalk (src comment : String) (r a : Bool) (segs : List String) :
    ∀ (t : TagTree) (pfx : TagPath) (cont : List TagPath),
      ContainersOk t → cont = selfAndAncestors pfx →
      ContainersOk (insertWalk src comment r a t pfx cont segs) := by
  induction segs with
  | nil =>
    intro t pfx cont h _
    exact h
  | cons s rest ih =>
    intro t pfx cont h hc
    cases rest with
    | nil =>
      rw [insertWalk_single]
      cases hf : findNode t (pfx ++ [s]) with
      | some dt => exact containersOk_insertExistingTerminal t (pfx ++ [s]) dt src comment r a h
      | none =>
        intro q d hq
        rcases findNode_append_cases hq with hold | ⟨_, hqk, hdn⟩
        · exact h q d hold
        · subst hqk
          subst hdn
          show (pfx ++ [s]) :: cont = selfAndAncestors (pfx ++ [s])
          rw [hc, selfAndAncestors_append]
    | cons s2 rest2 =>
      rw [insertWalk_cons2]
      cases hf : findNode t (pfx ++ [s]) with
      | some dt => exact ih t (pfx ++ [s]) dt.completeTagWithParents h (h (pfx ++ [s]) dt hf)
      | none =>
        refine ih _ (pfx ++ [s]) ((pfx ++ [s]) :: cont) ?_ ?_
        · intro q d hq
          rcases findNode_append_cases hq with hold | ⟨_, hqk, hdn⟩
          · exact h q d hold
          · subst hqk
            subst hdn
            show (pfx ++ [s]) :: cont = selfAndAncestors (pfx ++ [s])
            rw [hc, selfAndAncestors_append]
        · rw [hc, selfAndAncestors_append]

theorem containersOk_addTagTableRows (rows : List TagRow) :
    ContainersOk (addTagTableRows rows) := by
  suffices hgen : ∀ t, ContainersOk t → ContainersOk (rows.foldl addTagTableRow t) from
    hgen [] (fun q d h => by simp [findNode, assocFind] at h)
  induction rows with
  | nil => intro t h; exact h
  | cons row rest ih =>
    intro t h
    exact ih _ (containersOk_insertWalk row.source row.comment row.isRestricted
      row.allowNonRestrictedChildren row.path t [] [] h rfl)

/-- C6: in a tree built from row submissions, the parents query on any
registered tag returns the tag itself followed by every strict ancestor,
most specific first (for A.B.C exactly A.B.C, A.B, A in that order). -/
theorem requestMessageTagParents_spec (rows : List TagRow) (q : TagPath) (d : NodeData)
    (h : findNode (addTagTableRows rows) q = some d) :
    requestMessageTagParents (addTagTableRows rows) q = some (selfAndAncestors q) := by
  have hc := containersOk_addTagTableRows rows q d h
  simp [requestMessageTagParents, h, hc]

theorem requestMessageTagParents_spec_witness :
    findNode (addTagTableRows [⟨["A", "B", "C"], "S1", "", false, true⟩]) ["A", "B", "C"] =
      some (mkNode ["A", "B", "C"] [["A", "B"], ["A"]] (some "S1") "" true false true) ∧
    selfAndAncestors ["A", "B", "C"] = [["A", "B", "C"], ["A", "B"], ["A"]] ∧
    requestMessageTagParents (addTagTableRows [⟨["A", "B", "C"], "S1", "", false, true⟩])
        ["A", "B", "C"] = some (selfAndAncestors ["A", "B", "C"]) :=
  ⟨by decide, by decide,
   requestMessageTagParents_spec [⟨["A", "B", "C"], "S1", "", false, true⟩] ["A", "B", "C"]
     (mkNode ["A", "B", "C"] [["A", "B"], ["A"]] (some "S1") "" true false true) (by decide)⟩

theorem findNode_markConflictAt (t : TagTree) (p q : TagPath) :
    findNode (markConflictAt t p) q = (findNode t q).map (conflictXform p q) :=
  assocFind_mapValues (conflictXform p) t q

theorem insertWalk_single_found {t : TagTree} {pfx : TagPath} {s : String} {d : NodeData}
    (src comment : String) (r a : Bool) (cont : List TagPath)
    (h : findNode t (pfx ++ [s]) = some d) :
    insertWalk src comment r a t pfx cont [s] =
      insertExistingTerminal t (pfx ++ [s]) d src comment r a := by
  rw [insertWalk_single, h]

theorem insertWalk_single_new {t : TagTree} {pfx : TagPath} {s : String}
    (src comment : String) (r a : Bool) (cont : List TagPath)
    (h : findNode t (pfx ++ [s]) = none) :
    insertWalk src comment r a t pfx cont [s] =
      t ++ [(pfx ++ [s], mkNode (pfx ++ [s]) cont (some src) comment true r a)] := by
  rw [insertWalk_single, h]

theorem insertWalk_cons2_found {t : TagTree} {pfx : TagPath} {s s2 : String}
    {rest : List String} {d : NodeData}
    (src comment : String) (r a : Bool) (cont : List TagPath)
    (h : findNode t (pfx ++ [s]) = some d) :
    insertWalk src comment r a t pfx cont (s :: s2 :: rest) =
      insertWalk src comment r a t (pfx ++ [s]) d.completeTagWithParents (s2 :: rest) := by
  rw [insertWalk_cons2, h]

theorem insertWalk_cons2_new {t : TagTree} {pfx : TagPath} {s s2 : String}
    {rest : List String}
    (src comment : String) (r a : Bool) (cont : List TagPath)
    (h : findNode t (pfx ++ [s]) = none) :
    insertWalk src comment r a t pfx cont (s :: s2 :: rest) =
      insertWalk src comment r a
        (t ++ [(pfx ++ [s], mkNode (pfx ++ [s]) cont none "" false false true)])
        (pfx ++ [s]) ((pfx ++ [s]) :: cont) (s2 :: rest) := by
  rw [insertWalk_cons2, h]

theorem insertExistingTerminal_of_promoted (t1 : TagTree) (cur : TagPath) (dt : NodeData)
    (src comment : String) (r a : Bool) :
    insertExistingTerminal t1 cur (promoteData dt src comment r a) src comment r a = t1 := by
  unfold insertExistingTerminal promoteData
  simp

theorem insertExistingTerminal_of_new (t1 : TagTree) (cur cur2 : TagPath)
    (cont : List TagPath) (src comment : String) (r a : Bool) :
    insertExistingTerminal t1 cur (mkNode cur2 cont (some src) comment true r a)
      src comment r a = t1 := by
  unfold insertExistingTerminal mkNode
  simp

theorem insertWalk_idem (src comment : String) (r a : Bool) (segs : List String) :
    ∀ (t : TagTree) (pfx : TagPath) (cont cont' : List TagPath),
      insertWalk src comment r a (insertWalk src comment r a t pfx cont segs) pfx cont' segs =
        insertWalk src comment r a t pfx cont segs := by
  induction segs with
  | nil =>
    intro t pfx cont cont'
    rfl
  | cons s rest ih =>
    intro t pfx cont cont'
    cases rest with
    | nil =>
      cases hf : findNode t (pfx ++ [s]) with
      | none =>
        rw [insertWalk_single_new src comment r a cont hf,
            insertWalk_single_found src comment r a cont' (findNode_append_self _ hf),
            insertExistingTerminal_of_new]
      | some dt =>
        rw [insertWalk_single_found src comment r a cont hf]
        by_cases he : dt.bIsExplicitTag = false
        · have h2 : findNode (insertExistingTerminal t (pfx ++ [s]) dt src comment r a)
              (pfx ++ [s]) = some (promoteData dt src comment r a) := by
            rw [findNode_insertExistingTerminal, if_pos he, hf]
            simp
          rw [insertWalk_single_found src comment r a cont' h2,
              insertExistingTerminal_of_promoted]
        · by_cases hsame : dt.sourceName = some src ∧ dt.bIsRestrictedTag = r ∧
              dt.bAllowNonRestrictedChildren = a
          · have ht1 : insertExistingTerminal t (pfx ++ [s]) dt src comment r a = t := by
              unfold insertExistingTerminal
              rw [if_neg he, if_pos hsame]
            rw [ht1, insertWalk_single_found src comment r a cont' hf, ht1]
          · have ht1 : insertExistingTerminal t (pfx ++ [s]) dt src comment r a =
                markConflictAt t (pfx ++ [s]) := by
              unfold insertExistingTerminal
              rw [if_neg he, if_neg hsame]
            have h2 : findNode (markConflictAt t (pfx ++ [s])) (pfx ++ [s]) =
                some { dt with bNodeHasConflict := true } := by
              rw [findNode_markConflictAt, hf, Option.map_some', conflictXform_self]
            rw [ht1, insertWalk_single_found src comment r a cont' h2]
            have he' : ¬({ dt with bNodeHasConflict := true } : NodeData).bIsExplicitTag
                = false := he
            have hsame' : ¬(({ dt with bNodeHasConflict := true } : NodeData).sourceName
                  = some src ∧
                ({ dt with bNodeHasConflict := true } : NodeData).bIsRestrictedTag = r ∧
                ({ dt with bNodeHasConflict := true } : NodeData).bAllowNonRestrictedChildren
                  = a) := hsame
            unfold insertExistingTerminal
            rw [if_neg he', if_neg hsame']
            exact markConflictAt_idem t (pfx ++ [s])
    | cons s2 rest2 =>
      cases hf : findNode t (pfx ++ [s]) with
      | some dt =>
        rw [insertWalk_cons2_found src comment r a cont hf]
        obtain ⟨d', hd', _⟩ := findNode_insertWalk_mono src comment r a (s2 :: rest2) t
          (pfx ++ [s]) dt.completeTagWithParents (pfx ++ [s]) dt hf
        rw [insertWalk_cons2_found src comment r a cont' hd']
        exact ih t (pfx ++ [s]) dt.completeTagWithParents d'.completeTagWithParents
      | none =>
        rw [insertWalk_cons2_new src comment r a cont hf]
        have hfi := findNode_append_self
          (mkNode (pfx ++ [s]) cont none "" false false true) hf
        obtain ⟨d', hd', _⟩ := findNode_insertWalk_mono src comment r a (s2 :: rest2) _
          (pfx ++ [s]) ((pfx ++ [s]) :: cont) (pfx ++ [s]) _ hfi
        rw [insertWalk_cons2_found src comment r a cont' hd']
        exact ih _ (pfx ++ [s]) ((pfx ++ [s]) :: cont) d'.completeTagWithParents

/-- C8: insertion is idempotent: submitting the identical (path, source,
comment, flags) row twice produces exactly the tree of a single submission,
so the node count is unchanged and no conflict flag is newly set by the
second submission. -/
theorem addTagTableRow_idempotent (t : TagTree) (row : TagRow) :
    addTagTableRow (addTagTableRow t row) row = addTagTableRow t row ∧
    (addTagTableRow (addTagTableRow t row) row).length = (addTagTableRow t row).length := by
  have h' : addTagTableRow (addTagTableRow t row) row = addTagTableRow t row :=
    insertWalk_idem row.source row.comment row.isRestricted
      row.allowNonRestrictedChildren row.path t [] [] []
  exact ⟨h', by rw [h']⟩
